import Mathlib

/-!
Verification development for the `query-crawler` repository (`src/main.py`).

The program is a recursive web crawler: `crawl_page(url, query, visited_urls,
max_threads)` checks `url in visited_urls`, adds the url, performs an HTTP GET
(`requests.get` + `raise_for_status`), extracts the page text, records a match
pair `(query.lower(), url)` when `query.lower() in text.lower()`, filters the
anchor hrefs by `href.startswith('/') or href.startswith(url)`, resolves them
with `urllib.parse.urljoin`, and recurses on each resolved link inside a fresh
`ThreadPoolExecutor`.  On a `RequestException` it prints the error and
returns `[]`.

The embedding below models one run as explicit state passing: the network is a
finite table from URLs to fetch outcomes, and the recursion is sequentialized
(children are processed in submission order) with a fuel argument bounding the
recursion depth.  The state records the visited set, the log of issued fetches,
the log of successful fetches, the log of recorded errors, and the number of
`ThreadPoolExecutor` pools created.  String primitives (`startswith`, `lower`,
substring `in`) are modelled over the character lists of the strings; `lower`
follows CPython on the ASCII fragment.  A separate small interleaving model
captures the two-step (check, then add) shape of the visited-set claim as
executed by two concurrent threads.
-/

namespace QueryCrawler

/-- Models Python `str.startswith(p)`: the characters of `p` are a prefix of
the characters of `s`. -/
def strStartsWith (s p : String) : Bool :=
  p.data.isPrefixOf s.data

/-- Models Python `str.lower()` on the ASCII fragment: lower-case each
character. -/
def lowerStr (s : String) : String :=
  String.mk (s.data.map Char.toLower)

/-- Boolean infix test on character lists: `needle` occurs contiguously inside
`hay`.  Models the Python substring operator `needle in hay`. -/
def listInfix (needle : List Char) : List Char → Bool
  | [] => needle.isPrefixOf []
  | c :: rest => needle.isPrefixOf (c :: rest) || listInfix needle rest

/-- Models Python `needle in hay` for strings (substring containment). -/
def pyIn (needle hay : String) : Bool :=
  listInfix needle.data hay.data

/-- Outcome classification of `requests.get(url)` followed by
`raise_for_status()`: a network-level failure or a non-2xx HTTP status, both
surfacing as `requests.exceptions.RequestException` in the source. -/
inductive FetchError where
  | network : FetchError
  | status : Nat → FetchError
deriving DecidableEq, Repr

/-- A fetched page as the crawler observes it after BeautifulSoup parsing
(which is an external collaborator): the visible text returned by
`soup.get_text(separator=" ", strip=True)` and the list of `href` attributes
of the `<a href=...>` elements in document order, duplicates included. -/
structure Page where
  text : String
  hrefs : List String
deriving DecidableEq, Repr

/-- A finite model of the network: each URL is bound to the outcome of
fetching it; URLs absent from the table fail with a network error. -/
abbrev Site := List (String × Except FetchError Page)

/-- Models `requests.get(url)` + `raise_for_status()` against a `Site`
table. -/
def fetchUrl (site : Site) (u : String) : Except FetchError Page :=
  (site.lookup u).getD (Except.error FetchError.network)

/-- Scheme of an absolute http(s) URL, used by the `urljoin` model; empty for
other strings. -/
def schemeOf (base : String) : String :=
  if strStartsWith base "http://" then "http"
  else if strStartsWith base "https://" then "https"
  else ""

/-- Scheme-plus-host part of an absolute http(s) URL (everything before the
first `/` of the path), used by the `urljoin` model to resolve root-relative
hrefs; empty for strings without an http(s) scheme. -/
def originOf (base : String) : String :=
  if strStartsWith base "http://" then
    "http://" ++ String.mk ((base.data.drop 7).takeWhile (fun c => c ≠ '/'))
  else if strStartsWith base "https://" then
    "https://" ++ String.mk ((base.data.drop 8).takeWhile (fun c => c ≠ '/'))
  else ""

/-- The base URL up to and including its last `/`, used by the `urljoin`
model to resolve plain relative hrefs. -/
def dirOf (base : String) : String :=
  String.mk ((base.data.reverse.dropWhile (fun c => c ≠ '/')).reverse)

/-- Models `urllib.parse.urljoin(base, link)` on the href shapes the crawler
produces: scheme-relative hrefs (`//host/...`) take the base's scheme;
absolute http(s) hrefs are returned unchanged; root-relative hrefs (`/...`)
are attached to the base's origin; remaining hrefs are resolved against the
base's directory (simple relative references; dot segments do not occur in
this development).  The crawler only ever resolves hrefs that pass its
candidate filter, which fall in the first three cases whenever the page URL
is an absolute http(s) URL. -/
def urljoin (base link : String) : String :=
  if strStartsWith link "//" then
    (if schemeOf base = "" then link else schemeOf base ++ ":" ++ link)
  else if strStartsWith link "http://" || strStartsWith link "https://" then link
  else if strStartsWith link "/" then originOf base ++ link
  else dirOf base ++ link

/-- The candidate filter of `main.py` line 35:
`link['href'].startswith('/') or link['href'].startswith(url)`. -/
def isCandidate (url href : String) : Bool :=
  strStartsWith href "/" || strStartsWith href url

/-- Lines 35-36 of `main.py`: keep the candidate hrefs, then resolve each one
against the page URL.  The result is a list; no deduplication is applied. -/
def extractLinks (url : String) (hrefs : List String) : List String :=
  (hrefs.filter (fun h => isCandidate url h)).map (fun h => urljoin url h)

/-- Line 33 of `main.py`:
`[(query.lower(), url)] if query.lower() in all_text.lower() else []`. -/
def matchList (query url text : String) : List (String × String) :=
  if pyIn (lowerStr query) (lowerStr text) then [(lowerStr query, url)] else []

/-- The mutable state of one run: the shared `visited_urls` set, the log of
URLs for which `requests.get` was issued, the log of URLs whose fetch
succeeded, the log of recorded fetch errors (the `print` on line 47), and the
number of `ThreadPoolExecutor` pools created (line 39). -/
structure CrawlState where
  visited : List String
  fetchLog : List String
  okLog : List String
  errLog : List (String × FetchError)
  pools : Nat
deriving DecidableEq, Repr

/-- The state at the start of a run (`main` passes a fresh empty `set()`). -/
def initState : CrawlState :=
  { visited := [], fetchLog := [], okLog := [], errLog := [], pools := 0 }

/-- Lines 23-27 of `main.py` for an unvisited URL: `visited_urls.add(url)`
followed by issuing `requests.get(url)` (logged in `fetchLog`). -/
def claimState (url : String) (s : CrawlState) : CrawlState :=
  { s with visited := url :: s.visited, fetchLog := s.fetchLog ++ [url] }

/-- Lines 46-48 of `main.py`: the fetch raised, the error is printed
(recorded in `errLog`); the URL stays claimed. -/
def errState (url : String) (e : FetchError) (s : CrawlState) : CrawlState :=
  { claimState url s with errLog := s.errLog ++ [(url, e)] }

/-- Lines 28-39 of `main.py`: the fetch succeeded (recorded in `okLog`) and a
fresh `ThreadPoolExecutor` is opened for the page (counted in `pools`). -/
def okState (url : String) (s : CrawlState) : CrawlState :=
  { claimState url s with okLog := s.okLog ++ [url], pools := s.pools + 1 }

/-- Sequentialized processing of the child tasks submitted to the executor on
lines 40-42: each discovered link is crawled in submission order, threading
the shared state, and the child result lists are concatenated onto the
accumulated matches.  `none` propagates fuel exhaustion of the page
crawler. -/
def crawlChildren (step : String → CrawlState → Option (List (String × String) × CrawlState)) :
    List String → CrawlState → Option (List (String × String) × CrawlState)
  | [], s => some ([], s)
  | l :: ls, s =>
    match step l s with
    | none => none
    | some (m, s1) =>
      match crawlChildren step ls s1 with
      | none => none
      | some (ms, s2) => some (m ++ ms, s2)

/-- The sequentialized embedding of `crawl_page` (lines 22-48 of `main.py`).
The fuel bounds the recursion depth; a real run corresponds to any fuel
larger than the number of fetchable pages (proved below).  The steps mirror
the source order: the `url in visited_urls` test, the `visited_urls.add(url)`
together with the fetch attempt, the error branch recording the failure and
returning `[]`, and the success branch computing the match list, extracting
the links, opening a fresh executor pool, and crawling the children. -/
def crawlPage (site : Site) (query : String) :
    Nat → String → CrawlState → Option (List (String × String) × CrawlState)
  | 0, _, _ => none
  | fuel + 1, url, s =>
    if url ∈ s.visited then some ([], s)
    else
      match fetchUrl site url with
      | Except.error e => some ([], errState url e s)
      | Except.ok page =>
        match crawlChildren (fun l st => crawlPage site query fuel l st)
            (extractLinks url page.hrefs) (okState url s) with
        | none => none
        | some (ms, s3) => some (matchList query url page.text ++ ms, s3)

/-! ### State-evolution invariants of one `crawl_page` call -/

/-- What one (sequentialized) `crawl_page` call does to the shared state:
the visited set only grows; the fetch log is extended by a duplicate-free
block of URLs that were all unvisited before the call, and the visited set
grows by exactly that block; the success log and the error log are extended
at the end. -/
structure Post (s s' : CrawlState) : Prop where
  visited_mono : ∀ u, u ∈ s.visited → u ∈ s'.visited
  fetch_delta : ∃ d, s'.fetchLog = s.fetchLog ++ d ∧ d.Nodup ∧
    (∀ u, u ∈ d → u ∉ s.visited) ∧ (∀ u, u ∈ s'.visited ↔ u ∈ s.visited ∨ u ∈ d)
  ok_mono : ∃ d, s'.okLog = s.okLog ++ d
  err_mono : ∃ d, s'.errLog = s.errLog ++ d

/-- Closure property of a finished call: every URL claimed during the call
whose fetch succeeds has had all its extracted links claimed as well, and has
been recorded in the success log. -/
def Closed (site : Site) (s s' : CrawlState) : Prop :=
  ∀ u p, u ∈ s'.visited → u ∉ s.visited → fetchUrl site u = Except.ok p →
    ((∀ l, l ∈ extractLinks u p.hrefs → l ∈ s'.visited) ∧ u ∈ s'.okLog)

/-! ### Termination: fuel larger than the number of unclaimed fetchable pages
suffices -/

/-- Whether a fetch outcome is a success. -/
def isOkB (x : Except FetchError Page) : Bool :=
  match x with
  | Except.ok _ => true
  | Except.error _ => false

/-- The URLs of the site whose fetch succeeds (the only ones the crawler can
recurse through). -/
def okUrls (site : Site) : List String :=
  (site.filter (fun e => isOkB e.2)).map Prod.fst

/-- The number of fetchable site URLs not yet claimed: the measure that
shrinks at every successful fetch. -/
def unclaimedOk (site : Site) (s : CrawlState) : Nat :=
  (okUrls site).countP (fun u => decide (u ∉ s.visited))

/-! ### Reachability and the fetched-exactly-once property -/

/-- The URLs reachable from the seed through the crawler's own link
extraction: the seed itself, plus every link extracted from a reachable page
whose fetch succeeds. -/
inductive Reaches (site : Site) (seed : String) : String → Prop where
  | refl : Reaches site seed seed
  | step {u : String} {p : Page} {l : String} :
      Reaches site seed u → fetchUrl site u = Except.ok p →
      l ∈ extractLinks u p.hrefs → Reaches site seed l

/-! ### Interleaving model of the non-atomic claim (lines 23-25)

Two threads both execute the claim sequence for the same URL `u` on the
shared `visited_urls`: program counter 0 is the membership test
`url in visited_urls` (line 23), program counter 1 is `visited_urls.add(url)`
(line 25).  Each counter step is atomic under the CPython GIL, but the
scheduler may interleave the two threads between the test and the add. -/

/-- The two-step thread executing the claim: `pc = 0` before the membership
test, `pc = 1` between test and add, `pc = 2` done; `claimed` records whether
the thread proceeded as the claimer (reached the fetch). -/
structure ThreadSt where
  pc : Nat
  claimed : Bool
deriving DecidableEq, Repr

/-- Shared visited set plus the two thread states. -/
structure RaceState where
  visited : List String
  t1 : ThreadSt
  t2 : ThreadSt
deriving DecidableEq, Repr

/-- One atomic step of a single thread claiming `u`: at `pc = 0` evaluate
`u ∈ visited` (if it holds, return unclaimed — the `return []` of line 24);
at `pc = 1` execute the add and proceed as claimer. -/
def claimStep (u : String) (visited : List String) (t : ThreadSt) :
    List String × ThreadSt :=
  match t.pc with
  | 0 =>
    if u ∈ visited then (visited, { pc := 2, claimed := false })
    else (visited, { pc := 1, claimed := false })
  | 1 => (u :: visited, { pc := 2, claimed := true })
  | _ => (visited, t)

/-- Scheduler step: run one atomic step of thread 1 (`true`) or thread 2
(`false`). -/
def raceStep (u : String) (s : RaceState) (first : Bool) : RaceState :=
  if first then
    let r := claimStep u s.visited s.t1
    { s with visited := r.1, t1 := r.2 }
  else
    let r := claimStep u s.visited s.t2
    { s with visited := r.1, t2 := r.2 }

/-- Run a schedule (a list of thread choices) from a state. -/
def raceRun (u : String) (sched : List Bool) (s : RaceState) : RaceState :=
  sched.foldl (raceStep u) s

/-- Both threads about to claim, nothing visited yet. -/
def raceInit : RaceState :=
  { visited := [], t1 := { pc := 0, claimed := false },
    t2 := { pc := 0, claimed := false } }

/-! ### Concrete sites used by witnesses and counterexamples -/

/-- Cyclic two-page site: page `a` links to `b`, page `b` links back to
`a`. -/
def siteCycle : Site :=
  [("http://a.com/a", Except.ok { text := "", hrefs := ["/b"] }),
   ("http://a.com/b", Except.ok { text := "", hrefs := ["/a"] })]

/-- Acyclic two-page site: page `a` links to `b`, `b` is a leaf. -/
def siteTwo : Site :=
  [("http://a.com/a", Except.ok { text := "", hrefs := ["/b"] }),
   ("http://a.com/b", Except.ok { text := "", hrefs := [] })]

/-- Fault-isolation site: the seed links to a failing page (HTTP 500) and a
healthy page containing the query text. -/
def siteErr : Site :=
  [("http://a.com/a", Except.ok { text := "", hrefs := ["/b", "/c"] }),
   ("http://a.com/b", Except.error (FetchError.status 500)),
   ("http://a.com/c", Except.ok { text := "hello world", hrefs := [] })]

/-! ### Bridging lemmas for the string primitives -/

theorem strStartsWith_iff {s p : String} :
    strStartsWith s p = true ↔ p.data <+: s.data := by
  simp [strStartsWith]

theorem listInfix_iff (needle : List Char) :
    ∀ hay : List Char, listInfix needle hay = true ↔ needle <:+: hay := by
  intro hay
  induction hay with
  | nil => simp [listInfix]
  | cons c rest ih =>
    simp only [listInfix, Bool.or_eq_true, List.isPrefixOf_iff_prefix, ih]
    exact (List.infix_cons_iff).symm

theorem pyIn_iff {needle hay : String} :
    pyIn needle hay = true ↔ needle.data <:+: hay.data :=
  listInfix_iff needle.data hay.data

theorem post_refl {s : CrawlState} : Post s s where
  visited_mono := fun _ h => h
  fetch_delta := ⟨[], by simp⟩
  ok_mono := ⟨[], by simp⟩
  err_mono := ⟨[], by simp⟩

theorem post_trans {s s1 s2 : CrawlState} (h1 : Post s s1) (h2 : Post s1 s2) :
    Post s s2 where
  visited_mono := fun u hu => h2.visited_mono u (h1.visited_mono u hu)
  fetch_delta := by
    obtain ⟨d1, he1, hn1, hf1, hv1⟩ := h1.fetch_delta
    obtain ⟨d2, he2, hn2, hf2, hv2⟩ := h2.fetch_delta
    refine ⟨d1 ++ d2, by simp [he2, he1], ?_, ?_, ?_⟩
    · refine List.nodup_append.2 ⟨hn1, hn2, ?_⟩
      intro u hu1 hu2
      exact hf2 u hu2 ((hv1 u).2 (Or.inr hu1))
    · intro u hu
      rcases List.mem_append.1 hu with h | h
      · exact hf1 u h
      · intro hvis
        exact hf2 u h ((hv1 u).2 (Or.inl hvis))
    · intro u
      rw [hv2 u, hv1 u]
      simp [List.mem_append, or_assoc]
  ok_mono := by
    obtain ⟨d1, he1⟩ := h1.ok_mono
    obtain ⟨d2, he2⟩ := h2.ok_mono
    exact ⟨d1 ++ d2, by simp [he2, he1]⟩
  err_mono := by
    obtain ⟨d1, he1⟩ := h1.err_mono
    obtain ⟨d2, he2⟩ := h2.err_mono
    exact ⟨d1 ++ d2, by simp [he2, he1]⟩

theorem closed_refl {site : Site} {s : CrawlState} : Closed site s s := by
  intro u p hu hnu _
  exact absurd hu hnu

theorem closed_trans {site : Site} {s s1 s2 : CrawlState}
    (c1 : Closed site s s1) (c2 : Closed site s1 s2) (p2 : Post s1 s2) :
    Closed site s s2 := by
  intro u p hu hnu hok
  by_cases h1 : u ∈ s1.visited
  · obtain ⟨hl, hok1⟩ := c1 u p h1 hnu hok
    refine ⟨fun l hlmem => p2.visited_mono l (hl l hlmem), ?_⟩
    obtain ⟨d, hd⟩ := p2.ok_mono
    rw [hd]
    exact List.mem_append.2 (Or.inl hok1)
  · exact c2 u p hu h1 hok

/-- Membership of an appended-singleton update of the visited set. -/
theorem mem_cons_visited {u url : String} {v : List String} :
    u ∈ url :: v ↔ u ∈ v ∨ u ∈ [url] := by
  simp [or_comm]

/-! ### Unfolding lemmas for the crawler -/

theorem crawlPage_zero {site : Site} {q url : String} {s : CrawlState} :
    crawlPage site q 0 url s = none := rfl

theorem crawlPage_visited {site : Site} {q url : String} {fuel : Nat} {s : CrawlState}
    (hv : url ∈ s.visited) :
    crawlPage site q (fuel + 1) url s = some ([], s) := by
  simp [crawlPage, hv]

theorem crawlPage_error {site : Site} {q url : String} {fuel : Nat} {s : CrawlState}
    {e : FetchError} (hv : url ∉ s.visited) (hf : fetchUrl site url = Except.error e) :
    crawlPage site q (fuel + 1) url s = some ([], errState url e s) := by
  simp [crawlPage, hv, hf]

theorem crawlPage_ok {site : Site} {q url : String} {fuel : Nat} {s : CrawlState}
    {page : Page} (hv : url ∉ s.visited) (hf : fetchUrl site url = Except.ok page) :
    crawlPage site q (fuel + 1) url s =
      match crawlChildren (fun l st => crawlPage site q fuel l st)
          (extractLinks url page.hrefs) (okState url s) with
      | none => none
      | some (ms, s3) => some (matchList q url page.text ++ ms, s3) := by
  simp [crawlPage, hv, hf]

theorem crawlChildren_nil {step : String → CrawlState → Option (List (String × String) × CrawlState)}
    {s : CrawlState} : crawlChildren step [] s = some ([], s) := rfl

theorem crawlChildren_cons {step : String → CrawlState → Option (List (String × String) × CrawlState)}
    {l : String} {ls : List String} {s : CrawlState} :
    crawlChildren step (l :: ls) s =
      match step l s with
      | none => none
      | some (m, s1) =>
        match crawlChildren step ls s1 with
        | none => none
        | some (ms, s2) => some (m ++ ms, s2) := rfl

/-- The single-claim step (for either fetch outcome) satisfies the state
evolution contract. -/
theorem post_claim {url : String} {s : CrawlState} {s' : CrawlState}
    (hv : url ∉ s.visited)
    (hvis : s'.visited = url :: s.visited)
    (hfetch : s'.fetchLog = s.fetchLog ++ [url])
    (hok : ∃ d, s'.okLog = s.okLog ++ d)
    (herr : ∃ d, s'.errLog = s.errLog ++ d) :
    Post s s' where
  visited_mono := fun u hu => by rw [hvis]; exact List.mem_cons_of_mem url hu
  fetch_delta := ⟨[url], hfetch, List.nodup_singleton url, by simpa using hv,
    fun u => by rw [hvis]; exact mem_cons_visited⟩
  ok_mono := hok
  err_mono := herr

/-- The state evolution of the sequentialized child loop: it composes the
per-page postconditions over the submitted links and additionally leaves
every submitted link claimed. -/
theorem crawlChildren_post (site : Site) (q : String) (fuel : Nat)
    (ihp : ∀ url s r, crawlPage site q fuel url s = some r →
      Post s r.2 ∧ url ∈ r.2.visited ∧ Closed site s r.2) :
    ∀ (links : List String) (s : CrawlState) (r : List (String × String) × CrawlState),
      crawlChildren (fun l st => crawlPage site q fuel l st) links s = some r →
      Post s r.2 ∧ (∀ l, l ∈ links → l ∈ r.2.visited) ∧ Closed site s r.2 := by
  intro links
  induction links with
  | nil =>
    intro s r h
    rw [crawlChildren_nil] at h
    obtain rfl : (([] : List (String × String)), s) = r := by simpa using h
    exact ⟨post_refl, by simp, closed_refl⟩
  | cons l ls ih =>
    intro s r h
    cases h1 : crawlPage site q fuel l s with
    | none =>
      simp only [crawlChildren_cons, h1] at h
      exact absurd h (by simp)
    | some r1 =>
      obtain ⟨m, s1⟩ := r1
      cases h2 : crawlChildren (fun l st => crawlPage site q fuel l st) ls s1 with
      | none =>
        simp only [crawlChildren_cons, h1, h2] at h
        exact absurd h (by simp)
      | some r2 =>
        obtain ⟨ms, s2⟩ := r2
        simp only [crawlChildren_cons, h1, h2, Option.some.injEq] at h
        obtain rfl : ((m ++ ms, s2) : List (String × String) × CrawlState) = r := h
        obtain ⟨p1, hl1, c1⟩ := ihp l s (m, s1) h1
        obtain ⟨p2, hl2, c2⟩ := ih s1 (ms, s2) h2
        refine ⟨post_trans p1 p2, ?_, closed_trans c1 c2 p2⟩
        intro x hx
        rcases List.mem_cons.1 hx with rfl | hx
        · exact p2.visited_mono x hl1
        · exact hl2 x hx

/-- Master postcondition of one sequentialized `crawl_page` call: the state
evolves according to `Post`, the requested URL ends up claimed, and the call
is `Closed` (every page it fetched successfully has had all its links
claimed). -/
theorem crawlPage_post :
    ∀ (fuel : Nat) (site : Site) (q url : String) (s : CrawlState)
      (r : List (String × String) × CrawlState),
      crawlPage site q fuel url s = some r →
      Post s r.2 ∧ url ∈ r.2.visited ∧ Closed site s r.2 := by
  intro fuel
  induction fuel with
  | zero => intro site q url s r h; exact absurd h (by simp [crawlPage_zero])
  | succ fuel ih =>
    intro site q url s r h
    by_cases hv : url ∈ s.visited
    · rw [crawlPage_visited hv] at h
      obtain rfl : (([] : List (String × String)), s) = r := by simpa using h
      exact ⟨post_refl, hv, closed_refl⟩
    · cases hf : fetchUrl site url with
      | error e =>
        rw [crawlPage_error hv hf] at h
        obtain rfl : (([] : List (String × String)), errState url e s) = r := by
          simpa using h
        refine ⟨post_claim hv rfl rfl ⟨[], by simp [errState, claimState]⟩
          ⟨[(url, e)], rfl⟩, ?_, ?_⟩
        · exact List.mem_cons_self url s.visited
        · intro u p hu hnu hok
          have hu2 : u = url := by
            rcases List.mem_cons.1 hu with h' | h'
            · exact h'
            · exact absurd h' hnu
          subst hu2
          rw [hf] at hok
          exact absurd hok (by simp)
      | ok page =>
        rw [crawlPage_ok hv hf] at h
        cases hc : crawlChildren (fun l st => crawlPage site q fuel l st)
            (extractLinks url page.hrefs) (okState url s) with
        | none => rw [hc] at h; exact absurd h (by simp)
        | some rc =>
          obtain ⟨ms, s3⟩ := rc
          rw [hc] at h
          obtain rfl :
              ((matchList q url page.text ++ ms, s3) :
                List (String × String) × CrawlState) = r := by simpa using h
          obtain ⟨pc, hlc, cc⟩ :=
            crawlChildren_post site q fuel (fun url s r hh => ih site q url s r hh)
              (extractLinks url page.hrefs) _ (ms, s3) hc
          have pstep : Post s (okState url s) :=
            post_claim hv rfl rfl ⟨[url], rfl⟩ ⟨[], by simp [okState, claimState]⟩
          refine ⟨post_trans pstep pc, ?_, ?_⟩
          · exact pc.visited_mono url (List.mem_cons_self url s.visited)
          · intro u p hu hnu hok
            by_cases hu2 : u = url
            · subst hu2
              rw [hf] at hok
              have hpage : page = p := by simpa using hok
              subst hpage
              refine ⟨fun l hl => hlc l hl, ?_⟩
              obtain ⟨d, hd⟩ := pc.ok_mono
              rw [hd]
              simp [okState, claimState]
            · have hu3 : u ∉ (okState url s).visited := by
                simp only [okState, claimState]
                intro hmem
                rcases List.mem_cons.1 hmem with h' | h'
                · exact hu2 h'
                · exact hnu h'
              exact cc u p hu hu3 hok

theorem mem_okUrls {site : Site} {u : String} {p : Page}
    (hf : fetchUrl site u = Except.ok p) : u ∈ okUrls site := by
  induction site with
  | nil => simp [fetchUrl] at hf
  | cons kv rest ih =>
    obtain ⟨k, v⟩ := kv
    cases hkv : u == k with
    | true =>
      have hk : u = k := eq_of_beq hkv
      subst hk
      have hv : v = Except.ok p := by
        simpa [fetchUrl, List.lookup, hkv] using hf
      subst hv
      simp [okUrls, isOkB]
    | false =>
      have hf2 : fetchUrl rest u = Except.ok p := by
        simpa [fetchUrl, List.lookup, hkv] using hf
      have := ih hf2
      by_cases hok : isOkB v = true
      · simpa [okUrls, hok] using Or.inr (by simpa [okUrls] using this)
      · simpa [okUrls, hok] using (by simpa [okUrls] using this)

theorem countP_lt {α : Type} {l : List α} {p q : α → Bool}
    (himp : ∀ a, q a = true → p a = true) {x : α}
    (hx : x ∈ l) (hpx : p x = true) (hqx : q x = false) :
    l.countP q < l.countP p := by
  induction l with
  | nil => cases hx
  | cons a t ih =>
    rw [List.countP_cons, List.countP_cons]
    rcases List.mem_cons.1 hx with rfl | hmem
    · have h1 : t.countP q ≤ t.countP p :=
        List.countP_mono_left (fun a _ => himp a)
      have h2 : (if q x = true then 1 else 0) = 0 := by simp [hqx]
      have h3 : (if p x = true then 1 else 0) = 1 := by simp [hpx]
      rw [h2, h3]
      omega
    · have h1 := ih hmem
      have h2 : (if q a = true then 1 else 0) ≤ (if p a = true then 1 else 0) := by
        cases hqa : q a
        · simp
        · simp [himp a hqa]
      omega

theorem unclaimed_mono {site : Site} {s s' : CrawlState}
    (h : ∀ u, u ∈ s.visited → u ∈ s'.visited) :
    unclaimedOk site s' ≤ unclaimedOk site s := by
  refine List.countP_mono_left ?_
  intro u _ hu
  simp only [decide_eq_true_eq] at hu ⊢
  exact fun hmem => hu (h u hmem)

theorem unclaimed_strict {site : Site} {url : String} {s : CrawlState}
    (hmem : url ∈ okUrls site) (hv : url ∉ s.visited) :
    unclaimedOk site (okState url s) < unclaimedOk site s := by
  refine countP_lt ?_ hmem ?_ ?_
  · intro a ha
    simp only [okState, claimState, decide_eq_true_eq, List.mem_cons] at ha ⊢
    exact fun hmem2 => ha (Or.inr hmem2)
  · simpa using hv
  · simp [okState, claimState]

theorem crawlChildren_total (site : Site) (q : String) (fuel : Nat)
    (ihp : ∀ url s, unclaimedOk site s < fuel → ∃ r, crawlPage site q fuel url s = some r) :
    ∀ (links : List String) (s : CrawlState), unclaimedOk site s < fuel →
      ∃ r, crawlChildren (fun l st => crawlPage site q fuel l st) links s = some r := by
  intro links
  induction links with
  | nil => intro s _; exact ⟨([], s), rfl⟩
  | cons l ls ih =>
    intro s hlt
    obtain ⟨r1, h1⟩ := ihp l s hlt
    obtain ⟨m, s1⟩ := r1
    have hpost := crawlPage_post fuel site q l s (m, s1) h1
    have hle : unclaimedOk site s1 ≤ unclaimedOk site s :=
      unclaimed_mono hpost.1.visited_mono
    obtain ⟨r2, h2⟩ := ih s1 (lt_of_le_of_lt hle hlt)
    obtain ⟨ms, s2⟩ := r2
    exact ⟨(m ++ ms, s2), by simp [crawlChildren_cons, h1, h2]⟩

/-- Termination of the sequentialized crawl: any fuel strictly larger than
the number of not-yet-claimed fetchable URLs makes the crawl complete (no
fuel exhaustion), whatever the link structure — cyclic link graphs
included. -/
theorem crawlPage_total :
    ∀ (fuel : Nat) (site : Site) (q url : String) (s : CrawlState),
      unclaimedOk site s < fuel → ∃ r, crawlPage site q fuel url s = some r := by
  intro fuel
  induction fuel with
  | zero => intro site q url s h; omega
  | succ fuel ih =>
    intro site q url s hlt
    by_cases hv : url ∈ s.visited
    · exact ⟨([], s), crawlPage_visited hv⟩
    · cases hf : fetchUrl site url with
      | error e => exact ⟨([], errState url e s), crawlPage_error hv hf⟩
      | ok page =>
        have hdec : unclaimedOk site (okState url s) < unclaimedOk site s :=
          unclaimed_strict (mem_okUrls hf) hv
        have hlt2 : unclaimedOk site (okState url s) < fuel := by omega
        obtain ⟨rc, hc⟩ :=
          crawlChildren_total site q fuel (fun url s h => ih site q url s h)
            (extractLinks url page.hrefs) (okState url s) hlt2
        obtain ⟨ms, s3⟩ := rc
        exact ⟨(matchList q url page.text ++ ms, s3), by rw [crawlPage_ok hv hf, hc]⟩

/-- Every URL reachable from the seed of a completed run (started on a fresh
`visited_urls` set) ends up claimed. -/
theorem reaches_visited {site : Site} {q : String} {fuel : Nat} {seed : String}
    {r : List (String × String) × CrawlState}
    (h : crawlPage site q fuel seed initState = some r) :
    ∀ u, Reaches site seed u → u ∈ r.2.visited := by
  intro u hr
  induction hr with
  | refl => exact (crawlPage_post fuel site q seed initState r h).2.1
  | step hru hok hl ih =>
    have hc := (crawlPage_post fuel site q seed initState r h).2.2
    exact (hc _ _ ih (by simp [initState]) hok).1 _ hl

/-- In a run started on a fresh `visited_urls` set, the fetch log is
duplicate-free and coincides with the visited set. -/
theorem fetchLog_init {site : Site} {q : String} {fuel : Nat} {url : String}
    {r : List (String × String) × CrawlState}
    (h : crawlPage site q fuel url initState = some r) :
    r.2.fetchLog.Nodup ∧ (∀ u, u ∈ r.2.visited ↔ u ∈ r.2.fetchLog) := by
  obtain ⟨post, -, -⟩ := crawlPage_post fuel site q url initState r h
  obtain ⟨d, hd, hnod, -, hiff⟩ := post.fetch_delta
  have hd' : r.2.fetchLog = d := by simpa [initState] using hd
  constructor
  · rw [hd']; exact hnod
  · intro u
    rw [hiff u, hd']
    simp [initState]

/-- Each URL reachable from the seed of a completed fresh run appears exactly
once in the fetch log: it is fetched exactly once. -/
theorem reaches_fetched_once {site : Site} {q : String} {fuel : Nat} {seed : String}
    {r : List (String × String) × CrawlState}
    (h : crawlPage site q fuel seed initState = some r)
    {u : String} (hr : Reaches site seed u) : r.2.fetchLog.count u = 1 := by
  obtain ⟨hnod, hiff⟩ := fetchLog_init h
  exact List.count_eq_one_of_mem hnod ((hiff u).1 (reaches_visited h u hr))

/-! ### The empty query matches every successfully fetched page -/

theorem listInfix_nil_left (hay : List Char) : listInfix [] hay = true := by
  cases hay <;> simp [listInfix, List.isPrefixOf]

theorem matchList_empty_query (url text : String) :
    matchList "" url text = [("", url)] := by
  have h0 : lowerStr "" = "" := rfl
  have h1 : ("" : String).data = [] := rfl
  simp [matchList, pyIn, h0, h1, listInfix_nil_left]

theorem crawlChildren_empty_query (site : Site) (fuel : Nat)
    (ihp : ∀ url s r, crawlPage site "" fuel url s = some r →
      ∃ d, r.2.okLog = s.okLog ++ d ∧ r.1 = d.map (fun u => (("" : String), u))) :
    ∀ (links : List String) (s : CrawlState) (r : List (String × String) × CrawlState),
      crawlChildren (fun l st => crawlPage site "" fuel l st) links s = some r →
      ∃ d, r.2.okLog = s.okLog ++ d ∧ r.1 = d.map (fun u => (("" : String), u)) := by
  intro links
  induction links with
  | nil =>
    intro s r h
    rw [crawlChildren_nil] at h
    obtain rfl : (([] : List (String × String)), s) = r := by simpa using h
    exact ⟨[], by simp, rfl⟩
  | cons l ls ih =>
    intro s r h
    cases h1 : crawlPage site "" fuel l s with
    | none =>
      simp only [crawlChildren_cons, h1] at h
      exact absurd h (by simp)
    | some r1 =>
      obtain ⟨m, s1⟩ := r1
      cases h2 : crawlChildren (fun l st => crawlPage site "" fuel l st) ls s1 with
      | none =>
        simp only [crawlChildren_cons, h1, h2] at h
        exact absurd h (by simp)
      | some r2 =>
        obtain ⟨ms, s2⟩ := r2
        simp only [crawlChildren_cons, h1, h2, Option.some.injEq] at h
        obtain rfl : ((m ++ ms, s2) : List (String × String) × CrawlState) = r := h
        obtain ⟨d1, hd1, hm1⟩ := ihp l s (m, s1) h1
        obtain ⟨d2, hd2, hm2⟩ := ih s1 (ms, s2) h2
        refine ⟨d1 ++ d2, ?_, ?_⟩
        · simp only at hd1 hd2 ⊢
          rw [hd2, hd1, List.append_assoc]
        · simp only at hm1 hm2 ⊢
          rw [hm1, hm2, List.map_append]

/-- For the empty query, the matches returned by a (sequentialized)
`crawl_page` call are exactly one pair `("", u)` per URL `u` newly appended
to the success log, in order. -/
theorem crawlPage_empty_query :
    ∀ (fuel : Nat) (site : Site) (url : String) (s : CrawlState)
      (r : List (String × String) × CrawlState),
      crawlPage site "" fuel url s = some r →
      ∃ d, r.2.okLog = s.okLog ++ d ∧ r.1 = d.map (fun u => (("" : String), u)) := by
  intro fuel
  induction fuel with
  | zero => intro site url s r h; exact absurd h (by simp [crawlPage_zero])
  | succ fuel ih =>
    intro site url s r h
    by_cases hv : url ∈ s.visited
    · rw [crawlPage_visited hv] at h
      obtain rfl : (([] : List (String × String)), s) = r := by simpa using h
      exact ⟨[], by simp, rfl⟩
    · cases hf : fetchUrl site url with
      | error e =>
        rw [crawlPage_error hv hf] at h
        obtain rfl : (([] : List (String × String)), errState url e s) = r := by
          simpa using h
        exact ⟨[], by simp [errState, claimState], rfl⟩
      | ok page =>
        rw [crawlPage_ok hv hf] at h
        cases hc : crawlChildren (fun l st => crawlPage site "" fuel l st)
            (extractLinks url page.hrefs) (okState url s) with
        | none => rw [hc] at h; exact absurd h (by simp)
        | some rc =>
          obtain ⟨ms, s3⟩ := rc
          rw [hc] at h
          obtain rfl :
              ((matchList "" url page.text ++ ms, s3) :
                List (String × String) × CrawlState) = r := by simpa using h
          obtain ⟨d, hd, hm⟩ :=
            crawlChildren_empty_query site fuel (fun url s r hh => ih site url s r hh)
              (extractLinks url page.hrefs) (okState url s) (ms, s3) hc
          refine ⟨url :: d, ?_, ?_⟩
          · simp only at hd ⊢
            rw [hd]
            simp [okState, claimState]
          · simp only at hm ⊢
            rw [matchList_empty_query, hm]
            simp

/-! ### Auxiliary string-level lemmas for the link claims -/

theorem data_append (a b : String) : (a ++ b).data = a.data ++ b.data := rfl

theorem singleton_prefix {c : Char} {l : List Char} :
    [c] <+: l ↔ ∃ t, l = c :: t := by
  constructor
  · rintro ⟨t, ht⟩
    exact ⟨t, ht.symm⟩
  · rintro ⟨t, rfl⟩
    exact ⟨t, rfl⟩

/-- General form of C7: a candidate href of a page whose URL is an absolute
`http://` URL always resolves to an absolute http(s) URL. -/
theorem urljoin_absolute {base href : String}
    (hb : strStartsWith base "http://" = true)
    (hc : isCandidate base href = true) :
    strStartsWith (urljoin base href) "http://" = true ∨
      strStartsWith (urljoin base href) "https://" = true := by
  by_cases h1 : strStartsWith href "//" = true
  · left
    rw [urljoin, if_pos h1]
    have hs : schemeOf base = "http" := by rw [schemeOf, if_pos hb]
    rw [hs, if_neg (by decide : ("http" : String) ≠ "")]
    obtain ⟨t, ht⟩ := strStartsWith_iff.mp h1
    have ht2 : href.data = '/' :: '/' :: t := by
      rw [← ht]; rfl
    rw [strStartsWith_iff]
    refine ⟨t, ?_⟩
    rw [data_append, data_append, ht2]
    rfl
  · by_cases h2 : (strStartsWith href "http://" || strStartsWith href "https://") = true
    · rw [urljoin, if_neg h1, if_pos h2]
      rw [Bool.or_eq_true] at h2
      exact h2
    · by_cases h3 : strStartsWith href "/" = true
      · left
        rw [urljoin, if_neg h1, if_neg h2, if_pos h3, originOf, if_pos hb]
        rw [strStartsWith_iff]
        refine ⟨(String.mk ((base.data.drop 7).takeWhile (fun c => c ≠ '/'))).data
          ++ href.data, ?_⟩
        rw [data_append, data_append]
        simp [List.append_assoc]
      · exfalso
        rw [isCandidate, Bool.or_eq_true] at hc
        rcases hc with hc | hc
        · exact h3 hc
        · have habs : strStartsWith href "http://" = true := by
            rw [strStartsWith_iff] at hb hc ⊢
            exact hb.trans hc
          exact h2 (by rw [Bool.or_eq_true]; exact Or.inl habs)

/-! ### The ten claims -/

/-- C1.  The claim states that the check of `visited_urls` followed by
insertion returns true exactly once per distinct URL even under concurrent
discovery.  In the source the membership test (line 23) and the insertion
(line 25) are two separate atomic operations with no lock around them, so
the interleaving test₁, test₂, add₁, add₂ lets both threads claim the same
URL and fetch it twice; only fully sequential schedules give the
first-caller-wins outcome.  This theorem exhibits both schedules. -/
theorem claim_c1_nonatomic_claim_race :
    ((raceRun "http://x.com" [true, false, true, false] raceInit).t1.claimed = true ∧
      (raceRun "http://x.com" [true, false, true, false] raceInit).t2.claimed = true) ∧
    ((raceRun "http://x.com" [true, true, false, false] raceInit).t1.claimed = true ∧
      (raceRun "http://x.com" [true, true, false, false] raceInit).t2.claimed = false) := by
  decide

/-- C2.  The claim states that one shared pool of `maxWorkers` workers is
used for the entire run.  In the source every `crawl_page` call that gets
past `raise_for_status` opens its own fresh `ThreadPoolExecutor` (line 39):
already a two-page crawl creates two pools, one per fetched page, not one
shared pool per run. -/
theorem claim_c2_pool_per_page :
    Option.map (fun r => r.2.pools) (crawlPage siteTwo "q" 3 "http://a.com/a" initState)
      = some 2 ∧
    Option.map (fun r => r.2.okLog.length)
      (crawlPage siteTwo "q" 3 "http://a.com/a" initState) = some 2 := by
  decide

/-- C3.  For every finite link graph — cyclic ones included — the
sequentialized crawl terminates once the fuel exceeds the number of
unclaimed fetchable URLs; a URL already in the visited set is dropped with
no link re-expansion and no state change; and in a run started on a fresh
visited set every URL reachable through the crawler's own link extraction
(in particular every node of a reachable cycle) appears exactly once in the
fetch log. -/
theorem claim_c3_cycle_termination_unique_fetch :
    (∀ (site : Site) (q url : String) (fuel : Nat) (s : CrawlState),
        unclaimedOk site s < fuel → ∃ r, crawlPage site q fuel url s = some r) ∧
    (∀ (site : Site) (q url : String) (fuel : Nat) (s : CrawlState),
        url ∈ s.visited → crawlPage site q (fuel + 1) url s = some ([], s)) ∧
    (∀ (site : Site) (q seed : String) (fuel : Nat)
        (r : List (String × String) × CrawlState),
        crawlPage site q fuel seed initState = some r →
        ∀ u, Reaches site seed u → r.2.fetchLog.count u = 1) :=
  ⟨fun site q url fuel s h => crawlPage_total fuel site q url s h,
   fun _ _ _ _ _ hv => crawlPage_visited hv,
   fun _ _ _ _ _ h _ hr => reaches_fetched_once h hr⟩

/-- Witness for C3 on the concrete cycle `a ↔ b`: the run completes with
fuel 3 and both cyclic nodes are fetched exactly once. -/
theorem claim_c3_witness :
    ∃ r, crawlPage siteCycle "q" 3 "http://a.com/a" initState = some r ∧
      r.2.fetchLog.count "http://a.com/a" = 1 ∧
      r.2.fetchLog.count "http://a.com/b" = 1 := by
  obtain ⟨r, hr⟩ :=
    claim_c3_cycle_termination_unique_fetch.1 siteCycle "q" "http://a.com/a" 3 initState
      (by decide)
  refine ⟨r, hr, ?_, ?_⟩
  · exact claim_c3_cycle_termination_unique_fetch.2.2 siteCycle "q" "http://a.com/a" 3 r hr
      "http://a.com/a" Reaches.refl
  · exact claim_c3_cycle_termination_unique_fetch.2.2 siteCycle "q" "http://a.com/a" 3 r hr
      "http://a.com/b"
      (@Reaches.step siteCycle "http://a.com/a" "http://a.com/a"
        { text := "", hrefs := ["/b"] } "http://a.com/b" Reaches.refl rfl (by decide))

/-- C4.  A URL whose fetch fails produces no matches and no link expansion
(the success log and pool count are untouched; only visited, fetch log and
error log change), the failure is recorded in the error log, the call
returns normally, the remaining sibling tasks are processed exactly as if
only the error-logging update had happened, and a URL that is already
visited — in particular a previously failed one rediscovered later — is
dropped without a new fetch (no retry). -/
theorem claim_c4_fetch_failure_isolated :
    (∀ (site : Site) (q url : String) (fuel : Nat) (s : CrawlState) (e : FetchError),
        url ∉ s.visited → fetchUrl site url = Except.error e →
        crawlPage site q (fuel + 1) url s = some ([], errState url e s)) ∧
    (∀ (url : String) (e : FetchError) (s : CrawlState),
        (errState url e s).okLog = s.okLog ∧ (errState url e s).pools = s.pools ∧
        (errState url e s).errLog = s.errLog ++ [(url, e)]) ∧
    (∀ (site : Site) (q url : String) (fuel : Nat) (s : CrawlState) (e : FetchError)
        (ls : List String),
        url ∉ s.visited → fetchUrl site url = Except.error e →
        crawlChildren (fun l st => crawlPage site q (fuel + 1) l st) (url :: ls) s =
          crawlChildren (fun l st => crawlPage site q (fuel + 1) l st) ls
            (errState url e s)) ∧
    (∀ (site : Site) (q url : String) (fuel : Nat) (s : CrawlState),
        url ∈ s.visited → crawlPage site q (fuel + 1) url s = some ([], s)) := by
  refine ⟨fun _ _ _ _ _ _ hv hf => crawlPage_error hv hf,
    fun url e s => ⟨rfl, rfl, rfl⟩, ?_, fun _ _ _ _ _ hv => crawlPage_visited hv⟩
  intro site q url fuel s e ls hv hf
  cases hrest : crawlChildren (fun l st => crawlPage site q (fuel + 1) l st) ls
      (errState url e s) with
  | none => simp [crawlChildren_cons, crawlPage_error hv hf, hrest]
  | some r2 =>
    obtain ⟨ms, s2⟩ := r2
    simp [crawlChildren_cons, crawlPage_error hv hf, hrest]

/-- Witness for C4 on the fault-isolation site: fetching the failing page
`b` records the HTTP-500 failure and returns no matches. -/
theorem claim_c4_witness :
    crawlPage siteErr "hello" 2 "http://a.com/b" initState =
      some ([], errState "http://a.com/b" (FetchError.status 500) initState) :=
  claim_c4_fetch_failure_isolated.1 siteErr "hello" "http://a.com/b" 1 initState
    (FetchError.status 500) (by decide) rfl

/-- Counterexample for C5: a page at `http://x.com` whose href `/a` appears
twice contributes two identical entries to the extracted link list, not one
— the extractor performs no within-page deduplication. -/
theorem claim_c5_counterexample :
    (extractLinks "http://x.com" ["/a", "/a"]).count "http://x.com/a" = 2 := by
  decide

/-- C5 (amended).  The extractor preserves duplicates: an href occurring n
times among a page's candidate anchors contributes at least n entries for
its resolved URL in the extracted list.  Deduplication happens only at the
visited-set check, which still guarantees that a run started on a fresh
visited set never fetches any URL twice (the fetch log is
duplicate-free). -/
theorem claim_c5_extractor_keeps_duplicates :
    (∀ (url : String) (hrefs : List String) (h : String), isCandidate url h = true →
        hrefs.count h ≤ (extractLinks url hrefs).count (urljoin url h)) ∧
    (∀ (site : Site) (q url : String) (fuel : Nat)
        (r : List (String × String) × CrawlState),
        crawlPage site q fuel url initState = some r → r.2.fetchLog.Nodup) := by
  constructor
  · intro url hrefs h hcand
    have h1 : hrefs.count h = (hrefs.filter (fun x => isCandidate url x)).count h :=
      (List.count_filter (by simpa using hcand)).symm
    have h2 := List.count_le_count_map (hrefs.filter (fun x => isCandidate url x))
      (fun x => urljoin url x) h
    rw [extractLinks, h1]
    exact h2
  · intro site q url fuel r h
    exact (fetchLog_init h).1

/-- Witness for C5 (amended): the duplicated href `/a` keeps its two
occurrences, and the fetch log of a completed two-page run is
duplicate-free. -/
theorem claim_c5_witness :
    ((["/a", "/a"] : List String).count "/a" ≤
      (extractLinks "http://x.com" ["/a", "/a"]).count (urljoin "http://x.com" "/a")) ∧
    (["http://a.com/a", "http://a.com/b"] : List String).Nodup := by
  constructor
  · exact claim_c5_extractor_keeps_duplicates.1 "http://x.com" ["/a", "/a"] "/a" (by decide)
  · have h : crawlPage siteTwo "q" 3 "http://a.com/a" initState =
        some ([],
          { visited := ["http://a.com/b", "http://a.com/a"]
            fetchLog := ["http://a.com/a", "http://a.com/b"]
            okLog := ["http://a.com/a", "http://a.com/b"]
            errLog := []
            pools := 2 }) := by
      decide
    exact claim_c5_extractor_keeps_duplicates.2 siteTwo "q" "http://a.com/a" 3 _ h

/-- C6.  An anchor href is a candidate exactly when it begins with the
character `/` or has the current page's URL as a literal string prefix; in
particular `http://other.com/page` is not a candidate on a page at
`http://x.com`. -/
theorem claim_c6_candidate_iff :
    (∀ url href : String,
        isCandidate url href = true ↔
          ((∃ t, href.data = '/' :: t) ∨ url.data <+: href.data)) ∧
    isCandidate "http://x.com" "http://other.com/page" = false := by
  refine ⟨?_, by decide⟩
  intro url href
  have hslash : ("/" : String).data = ['/'] := rfl
  rw [isCandidate, Bool.or_eq_true, strStartsWith_iff, strStartsWith_iff, hslash,
    singleton_prefix]

/-- C7.  A candidate href on a page with an absolute `http://` URL resolves
to an absolute http(s) URL; concretely, on a page at `http://x.com/a/` the
href `/b` resolves to `http://x.com/b` and the absolute href
`http://x.com/a/c` resolves to itself unchanged. -/
theorem claim_c7_resolution :
    (∀ base href : String, strStartsWith base "http://" = true →
        isCandidate base href = true →
        (strStartsWith (urljoin base href) "http://" = true ∨
          strStartsWith (urljoin base href) "https://" = true)) ∧
    urljoin "http://x.com/a/" "/b" = "http://x.com/b" ∧
    urljoin "http://x.com/a/" "http://x.com/a/c" = "http://x.com/a/c" :=
  ⟨fun _ _ hb hc => urljoin_absolute hb hc, by decide, by decide⟩

/-- Witness for C7: the href `/b` on the page `http://x.com/a/` resolves to
an absolute http(s) URL. -/
theorem claim_c7_witness :
    strStartsWith (urljoin "http://x.com/a/" "/b") "http://" = true ∨
      strStartsWith (urljoin "http://x.com/a/" "/b") "https://" = true :=
  claim_c7_resolution.1 "http://x.com/a/" "/b" (by decide) (by decide)

/-- C8.  The match test succeeds exactly when the lower-cased query is a
contiguous substring of the lower-cased page text; on success the single
stored pair is (lower-cased query, page URL) and never more than one pair is
produced per page; concretely a page containing "FOO bar" matches both query
"foo" and query "FOO", always storing the lower-cased query "foo". -/
theorem claim_c8_match_semantics :
    (∀ q url text : String,
        (matchList q url text = [(lowerStr q, url)] ↔
          (lowerStr q).data <:+: (lowerStr text).data) ∧
        (matchList q url text = [] ↔ ¬ (lowerStr q).data <:+: (lowerStr text).data) ∧
        (matchList q url text).length ≤ 1) ∧
    matchList "foo" "http://x.com" "FOO bar" = [("foo", "http://x.com")] ∧
    matchList "FOO" "http://x.com" "FOO bar" = [("foo", "http://x.com")] := by
  refine ⟨?_, by decide, by decide⟩
  intro q url text
  by_cases h : pyIn (lowerStr q) (lowerStr text) = true
  · rw [matchList, if_pos h]
    exact ⟨iff_of_true rfl (pyIn_iff.mp h),
      iff_of_false (by simp) (not_not_intro (pyIn_iff.mp h)), by simp⟩
  · have hni : ¬ (lowerStr q).data <:+: (lowerStr text).data :=
      fun hinf => h (pyIn_iff.mpr hinf)
    rw [matchList, if_neg h]
    exact ⟨iff_of_false (by simp) hni, iff_of_true rfl hni, by simp⟩

/-- C9.  The visited set only grows across any (sequentialized) `crawl_page`
call; after the call the requested URL — fetched successfully or not — is a
member of the visited set; and every URL newly appended to the fetch log was
unvisited when the call began, so a URL already visited (for instance one
whose fetch failed earlier) is never fetched again. -/
theorem claim_c9_visited_monotone :
    ∀ (site : Site) (q : String) (fuel : Nat) (url : String) (s : CrawlState)
      (r : List (String × String) × CrawlState),
      crawlPage site q fuel url s = some r →
      (∀ u, u ∈ s.visited → u ∈ r.2.visited) ∧ url ∈ r.2.visited ∧
      ∃ d, r.2.fetchLog = s.fetchLog ++ d ∧ ∀ u, u ∈ d → u ∉ s.visited := by
  intro site q fuel url s r h
  obtain ⟨post, hurl, -⟩ := crawlPage_post fuel site q url s r h
  obtain ⟨d, hd, -, hfresh, -⟩ := post.fetch_delta
  exact ⟨post.visited_mono, hurl, d, hd, hfresh⟩

/-- Witness for C9: after fetching the failing page `b`, that URL is in the
visited set of the resulting state. -/
theorem claim_c9_witness :
    "http://a.com/b" ∈
      (errState "http://a.com/b" (FetchError.status 500) initState).visited := by
  have h : crawlPage siteErr "hello" 2 "http://a.com/b" initState =
      some ([], errState "http://a.com/b" (FetchError.status 500) initState) := by
    decide
  exact (claim_c9_visited_monotone siteErr "hello" 2 "http://a.com/b" initState _ h).2.1

/-- C10.  The empty query matches every page (the empty string is a
substring of every text), so a (sequentialized) run with query "" returns
exactly one pair ("", u) for each successfully fetched page u. -/
theorem claim_c10_empty_query :
    (∀ url text : String, matchList "" url text = [("", url)]) ∧
    (∀ (site : Site) (fuel : Nat) (url : String) (s : CrawlState)
        (r : List (String × String) × CrawlState),
        crawlPage site "" fuel url s = some r →
        ∃ d, r.2.okLog = s.okLog ++ d ∧ r.1 = d.map (fun u => (("" : String), u))) :=
  ⟨matchList_empty_query, fun site fuel url s r h => crawlPage_empty_query fuel site url s r h⟩

/-- Witness for C10: the empty-query run over the two-page site returns
exactly the pairs ("", a) and ("", b), one per successfully fetched page. -/
theorem claim_c10_witness :
    ∃ d,
      ({ visited := ["http://a.com/b", "http://a.com/a"]
         fetchLog := ["http://a.com/a", "http://a.com/b"]
         okLog := ["http://a.com/a", "http://a.com/b"]
         errLog := []
         pools := 2 } : CrawlState).okLog = initState.okLog ++ d ∧
      ([(("" : String), "http://a.com/a"), ("", "http://a.com/b")] :
        List (String × String)) = d.map (fun u => (("" : String), u)) := by
  have h : crawlPage siteTwo "" 3 "http://a.com/a" initState =
      some ([("", "http://a.com/a"), ("", "http://a.com/b")],
        { visited := ["http://a.com/b", "http://a.com/a"]
          fetchLog := ["http://a.com/a", "http://a.com/b"]
          okLog := ["http://a.com/a", "http://a.com/b"]
          errLog := []
          pools := 2 }) := by
    decide
  exact claim_c10_empty_query.2 siteTwo 3 "http://a.com/a" initState _ h

end QueryCrawler
